import Mathlib

/-!
Verification of the review classification and span-highlighting engine.

The development shallowly embeds the two leaf components of the repository:
the rule-based review classifier (ReviewClassifier and infer_batch in
models/local_infer.py) and the span detector plus HTML renderer
(default_spans and render_html_with_spans in utils/highlight.py).
Text is modelled as a list of characters; regular-expression matching is
modelled by explicit scanning functions with the same leftmost,
non-overlapping, greedy semantics; the random draws of the score
distribution are passed in as explicit rational parameters.
-/

abbrev Text := List Char

def lit (s : String) : Text := s.data

def apos : Char := Char.ofNat 39

def quoteC : Char := Char.ofNat 34

/-- Python whitespace for str.split and the regex class backslash-s,
restricted to ASCII: space, tab, newline, carriage return, vertical tab,
form feed. -/
def pyWs (c : Char) : Bool :=
  decide (c.toNat = 32) || decide (c.toNat = 9) || decide (c.toNat = 10) ||
  decide (c.toNat = 13) || decide (c.toNat = 11) || decide (c.toNat = 12)

/-- ASCII model of Python str.lower, applied per character. -/
def lowerChar (c : Char) : Char :=
  if 65 ≤ c.toNat ∧ c.toNat ≤ 90 then Char.ofNat (c.toNat + 32) else c

def lowerText (t : Text) : Text := t.map lowerChar

def asciiLower (c : Char) : Bool := decide (97 ≤ c.toNat ∧ c.toNat ≤ 122)

def asciiUpper (c : Char) : Bool := decide (65 ≤ c.toNat ∧ c.toNat ≤ 90)

def asciiCased (c : Char) : Bool := asciiLower c || asciiUpper c

/-- Regex word character (backslash-w), ASCII: letters, digits, underscore. -/
def isWordChar (c : Char) : Bool :=
  asciiLower c || asciiUpper c || decide (48 ≤ c.toNat ∧ c.toNat ≤ 57) || c == '_'

/-- n is an initial segment of the second argument. -/
def leadsWith : Text → Text → Bool
  | [], _ => true
  | _ :: _, [] => false
  | a :: as, b :: bs => a == b && leadsWith as bs

/-- Python substring containment: n occurs contiguously in the second argument. -/
def isSubOf (n : Text) : Text → Bool
  | [] => n.isEmpty
  | c :: rest => leadsWith n (c :: rest) || isSubOf n rest

/-- Length of the maximal run of non-whitespace characters at the head. -/
def nonWsRun (l : Text) : Nat := (l.takeWhile (fun c => !pyWs c)).length

def httpP : Text := ['h', 't', 't', 'p', ':', '/', '/']

def httpsP : Text := ['h', 't', 't', 'p', 's', ':', '/', '/']

def wwwP : Text := ['w', 'w', 'w', '.']

/-- Length of the match of the URL regex (https?://[^ws]+ | www.[^ws]+) at the
head of l, if any: the alternatives are tried in the regex order (with the
greedy optional s first) and the one-or-more non-whitespace tail is greedy. -/
def urlLenAt (l : Text) : Option Nat :=
  if leadsWith httpsP l && decide (0 < nonWsRun (l.drop 8)) then
    some (8 + nonWsRun (l.drop 8))
  else if leadsWith httpP l && decide (0 < nonWsRun (l.drop 7)) then
    some (7 + nonWsRun (l.drop 7))
  else if leadsWith wwwP l && decide (0 < nonWsRun (l.drop 4)) then
    some (4 + nonWsRun (l.drop 4))
  else none

/-- Python re.search for the URL pattern: does a match start at any position. -/
def urlSearch : Text → Bool
  | [] => false
  | c :: rest => (urlLenAt (c :: rest)).isSome || urlSearch rest

/-- Python finditer: scan positions left to right, emit each match and resume
at its end.  fuel bounds the number of scan steps; with fuel = length + 1 and
matchers that never match past the end this visits every position. -/
def scanSpans (f : Nat → Option Nat) : Nat → Nat → List (Nat × Nat)
  | 0, _ => []
  | fuel + 1, i =>
    match f i with
    | some n => (i, i + n) :: scanSpans f fuel (i + n)
    | none => scanSpans f fuel (i + 1)

def urlSpansOf (t : Text) : List (Nat × Nat) :=
  scanSpans (fun i => urlLenAt (t.drop i)) (t.length + 1) 0

def noWordCharAt (t : Text) (j : Nat) : Bool :=
  match t[j]? with
  | none => true
  | some c => !isWordChar c

/-- Case-insensitive whole-word match of the literal w (given lowercase) at
position i of t, with regex word boundaries on both sides.  All vocabulary
words start and end with a word character, so the boundary condition is that
the neighbouring character, when present, is not a word character. -/
def wMatchAt (w t : Text) (i : Nat) : Bool :=
  (lowerText ((t.drop i).take w.length) == w) && decide (i + w.length ≤ t.length) &&
  (i == 0 || noWordCharAt t (i - 1)) && noWordCharAt t (i + w.length)

def wordSpansOf (w t : Text) : List (Nat × Nat) :=
  scanSpans (fun i => if wMatchAt w t i then some w.length else none) (t.length + 1) 0

/-- Alternation of literal words with word boundaries around the group:
at each position the alternatives are tried in order. -/
def altLenAt (ws : List Text) (t : Text) (i : Nat) : Option Nat :=
  match ws.find? (fun w => wMatchAt w t i) with
  | some w => some w.length
  | none => none

def altSpansOf (ws : List Text) (t : Text) : List (Nat × Nat) :=
  scanSpans (altLenAt ws t) (t.length + 1) 0

def discountP : Text := ['d', 'i', 's', 'c', 'o', 'u', 'n', 't']

def couponP : Text := ['c', 'o', 'u', 'p', 'o', 'n']

def promoP : Text := ['p', 'r', 'o', 'm', 'o']

def saleP : Text := ['s', 'a', 'l', 'e']

def dealP : Text := ['d', 'e', 'a', 'l']

def offerP : Text := ['o', 'f', 'f', 'e', 'r']

def freeP : Text := ['f', 'r', 'e', 'e']

def vowP : Text :=
  ['v', 'i', 's', 'i', 't', ' ', 'o', 'u', 'r', ' ', 'w', 'e', 'b', 's', 'i', 't', 'e']

def neverP : Text := ['n', 'e', 'v', 'e', 'r', ' ', 'b', 'e', 'e', 'n']

def notVisitedP : Text := ['n', 'o', 't', ' ', 'v', 'i', 's', 'i', 't', 'e', 'd']

def haventApP : Text := ['h', 'a', 'v', 'e', 'n', apos, 't', ' ', 'b', 'e', 'e', 'n']

def haventP : Text := ['h', 'a', 'v', 'e', 'n', 't', ' ', 'b', 'e', 'e', 'n']

def bangP : Text := ['!', '!', '!', '!']

/-- ReviewClassifier.promo_words. -/
def promoWordsCls : List Text :=
  [discountP, couponP, promoP, saleP, dealP, offerP, freeP, vowP]

/-- The promo vocabulary of default_spans in utils/highlight.py. -/
def promoWordsHL : List Text := [discountP, promoP, saleP, couponP, dealP]

/-- The never-been alternation of ReviewClassifier (no "not visited"). -/
def neverWordsCls : List Text := [neverP, haventApP, haventP]

/-- The non-visitor alternation of default_spans (includes "not visited"). -/
def novisitWordsHL : List Text := [neverP, notVisitedP, haventApP, haventP]

abbrev Span := String × Nat × Nat

def tagAs (k : String) (l : List (Nat × Nat)) : List Span :=
  l.map (fun p => (k, p.1, p.2))

/-- ReviewClassifier._find_spans: URL spans, then promo spans word by word,
then never-been spans tagged irrelevant; no sorting. -/
def find_spans (t : Text) : List Span :=
  tagAs "url" (urlSpansOf t)
    ++ (promoWordsCls.flatMap (fun w => tagAs "promo" (wordSpansOf w t)))
    ++ tagAs "irrelevant" (altSpansOf neverWordsCls t)

/-- Stable insertion of a span into a list sorted by start offset: the new
span goes after all earlier spans with a strictly smaller or equal start. -/
def insSpan (s : Span) : List Span → List Span
  | [] => [s]
  | x :: xs => if x.2.1 < s.2.1 then x :: insSpan s xs else s :: x :: xs

/-- Stable sort by start offset, modelling Python list.sort / sorted with
key = start. -/
def isort : List Span → List Span
  | [] => []
  | x :: xs => insSpan x (isort xs)

/-- default_spans in utils/highlight.py: URL spans, then non-visitor spans,
then promo spans, finally sorted by start position. -/
def default_spans (t : Text) : List Span :=
  isort (tagAs "url" (urlSpansOf t)
    ++ tagAs "novisit" (altSpansOf novisitWordsHL t)
    ++ (promoWordsHL.flatMap (fun w => tagAs "promo" (wordSpansOf w t))))

/-- len(text.split()): number of maximal nonempty whitespace-delimited runs.
The Bool argument records whether the previous character was inside a word. -/
def wordCountAux : Text → Bool → Nat
  | [], _ => 0
  | c :: rest, inWord =>
    if pyWs c then wordCountAux rest false
    else (if inWord then 0 else 1) + wordCountAux rest true

def wordCount (t : Text) : Nat := wordCountAux t false

/-- Python str.isupper, ASCII model: at least one cased character and no
lowercase character. -/
def pyIsUpper (t : Text) : Bool :=
  t.any asciiCased && t.all (fun c => !asciiLower c)

def categories : List String := ["valid", "ad", "irrelevant", "rant"]

/-- The label decision cascade of ReviewClassifier.classify_review. -/
def classifyLabel (t : Text) : String :=
  if isSubOf vowP (lowerText t) || urlSearch t then "ad"
  else if isSubOf neverP (lowerText t) then "irrelevant"
  else if wordCount t < 5 then "irrelevant"
  else if isSubOf bangP t || pyIsUpper t then "rant"
  else "valid"

/-- The base confidence assigned alongside the label; the valid branch uses
the uniform draw from [0.6, 0.95], passed in as vDraw. -/
def baseConfidence (t : Text) (vDraw : ℚ) : ℚ :=
  if isSubOf vowP (lowerText t) || urlSearch t then 0.85
  else if isSubOf neverP (lowerText t) then 0.78
  else if wordCount t < 5 then 0.65
  else if isSubOf bangP t || pyIsUpper t then 0.72
  else vDraw

/-- The score-distribution loop: every non-last remaining category gets the
next draw and the remaining mass is decremented; the last category absorbs
the rest.  draw k models random.uniform(0.01, remaining * 0.6) at loop
index k. -/
def buildScores (draw : Nat → ℚ) : List String → ℚ → Nat → List (String × ℚ)
  | [], _, _ => []
  | [c], rem, _ => [(c, rem)]
  | c :: c2 :: cs, rem, k =>
    (c, draw k) :: buildScores draw (c2 :: cs) (rem - draw k) (k + 1)

/-- ReviewClassifier._get_violations. -/
def get_violations (label : String) (t : Text) : List String :=
  if label = "ad" then
    (if promoWordsCls.any (fun w => isSubOf w (lowerText t)) then
      ["Contains promotional content"] else [])
    ++ (if urlSearch t then ["Contains external links"] else [])
  else if label = "irrelevant" then
    (if isSubOf neverP (lowerText t) then ["Review from non-visitor"] else [])
    ++ (if wordCount t < 5 then ["Insufficient content"] else [])
  else if label = "rant" then
    (if isSubOf bangP t then ["Excessive punctuation"] else [])
    ++ (if pyIsUpper t then ["All caps text"] else [])
  else []

structure ClassificationRecord where
  label : String
  scores : List (String × ℚ)
  violations : List String
  spans : List Span
  deriving DecidableEq

/-- ReviewClassifier.classify_review, with the two kinds of random draws
passed in explicitly: vDraw is the uniform [0.6, 0.95] base draw of the
valid branch, draw k the k-th uniform(0.01, remaining * 0.6) draw.  The
scores dictionary is modelled as an association list in insertion order:
the decided label first, then the other categories in taxonomy order. -/
def classify_review (t : Text) (vDraw : ℚ) (draw : Nat → ℚ) : ClassificationRecord :=
  { label := classifyLabel t
    scores := (classifyLabel t, baseConfidence t vDraw) ::
      buildScores draw (categories.filter (fun c => c != classifyLabel t))
        (1 - baseConfidence t vDraw) 0
    violations := get_violations (classifyLabel t) t
    spans := find_spans t }

/-- One element of infer_batch in models/local_infer.py: span-driven
rule-based classification over default_spans. -/
def inferOne (t : Text) : ClassificationRecord :=
  let spans := default_spans t
  if spans.any (fun s => s.1 == "url") || spans.any (fun s => s.1 == "promo") then
    { label := "ad"
      scores := [("ad", 0.9), ("valid", 0.05), ("irrelevant", 0.03), ("rant", 0.02)]
      violations := ["No Advertisement"]
      spans := spans.map (fun s => (s.1, s.2.1, s.2.2)) }
  else if spans.any (fun s => s.1 == "novisit") then
    { label := "rant"
      scores := [("rant", 0.85), ("valid", 0.08), ("irrelevant", 0.05), ("ad", 0.02)]
      violations := ["No Rant Without Visit"]
      spans := spans.map (fun s => (s.1, s.2.1, s.2.2)) }
  else
    { label := "valid"
      scores := [("valid", 0.88), ("ad", 0.05), ("irrelevant", 0.04), ("rant", 0.03)]
      violations := []
      spans := spans.map (fun s => (s.1, s.2.1, s.2.2)) }

def infer_batch (ts : List Text) : List ClassificationRecord := ts.map inferOne

/-- One character of html.escape with quote = True. -/
def escChar (c : Char) : Text :=
  if c == '&' then ['&', 'a', 'm', 'p', ';']
  else if c == '<' then ['&', 'l', 't', ';']
  else if c == '>' then ['&', 'g', 't', ';']
  else if c == quoteC then ['&', 'q', 'u', 'o', 't', ';']
  else if c == apos then ['&', '#', 'x', '2', '7', ';']
  else [c]

def escapeHtml (t : Text) : Text := t.flatMap escChar

/-- The span_colors lookup with its gray default for unknown kinds. -/
def spanColorGet (kind : String) : String :=
  if kind = "url" then "#fde68a"
  else if kind = "novisit" then "#fecaca"
  else if kind = "promo" then "#bbf7d0"
  else "#f0f0f0"

def wrapSpan (color : String) (inner : Text) : Text :=
  lit "<span style=\"background-color: " ++ lit color
    ++ lit "; padding: 1px 2px; border-radius: 2px;\">" ++ inner ++ lit "</span>"

/-- The renderer walk over the sorted spans: escaped gap text before each
span, the escaped span text wrapped in its color, and the escaped tail. -/
def renderGo (t : Text) : Nat → List Span → Text
  | last, [] => if last < t.length then escapeHtml (t.drop last) else []
  | last, (k, s, e) :: rest =>
    (if last < s then escapeHtml ((t.drop last).take (s - last)) else [])
      ++ wrapSpan (spanColorGet k) (escapeHtml ((t.drop s).take (e - s)))
      ++ renderGo t e rest

/-- render_html_with_spans in utils/highlight.py. -/
def render_html_with_spans (t : Text) (spans : List Span) : Text :=
  if spans.isEmpty then escapeHtml t
  else renderGo t 0 (isort spans)

/-- Decoder of the five HTML entities produced by the escaper, scanning left
to right. -/
def unescape5 : Text → Text
  | [] => []
  | c :: rest =>
    if c == '&' && rest.take 4 == (['a', 'm', 'p', ';'] : Text) then
      '&' :: unescape5 (rest.drop 4)
    else if c == '&' && rest.take 3 == (['l', 't', ';'] : Text) then
      '<' :: unescape5 (rest.drop 3)
    else if c == '&' && rest.take 3 == (['g', 't', ';'] : Text) then
      '>' :: unescape5 (rest.drop 3)
    else if c == '&' && rest.take 5 == (['q', 'u', 'o', 't', ';'] : Text) then
      quoteC :: unescape5 (rest.drop 5)
    else if c == '&' && rest.take 5 == (['#', 'x', '2', '7', ';'] : Text) then
      apos :: unescape5 (rest.drop 5)
    else c :: unescape5 rest
  termination_by l => l.length
  decreasing_by all_goals (simp only [List.length_drop, List.length_cons]; omega)

/-- Spec-side notion: n occurs contiguously in h. -/
def ContainsSub (n h : Text) : Prop := ∃ a b, h = a ++ n ++ b

/-- Spec-side URL pattern at the head of l: http:// or https:// or www.
followed by at least one non-whitespace character. -/
def SpecUrlAt (l : Text) : Prop :=
  ∃ c r, (l = httpP ++ c :: r ∨ l = httpsP ++ c :: r ∨ l = wwwP ++ c :: r) ∧
    pyWs c = false

/-- Spec-side: the text contains a URL pattern match somewhere. -/
def SpecUrlHit (t : Text) : Prop := ∃ pre suf, t = pre ++ suf ∧ SpecUrlAt suf

def AdCond (t : Text) : Prop := ContainsSub vowP (lowerText t) ∨ SpecUrlHit t

def NeverCond (t : Text) : Prop := ContainsSub neverP (lowerText t)

def ShortCond (t : Text) : Prop := wordCount t < 5

def RantCond (t : Text) : Prop :=
  ContainsSub bangP t ∨
    ((∃ c ∈ t, asciiCased c = true) ∧ ∀ c ∈ t, asciiCased c = true → asciiUpper c = true)

/-- The five-step first-match-wins cascade as the specification states it. -/
def SpecCascade (t : Text) (lab : String) : Prop :=
  (AdCond t ∧ lab = "ad") ∨
  (¬AdCond t ∧ NeverCond t ∧ lab = "irrelevant") ∨
  (¬AdCond t ∧ ¬NeverCond t ∧ ShortCond t ∧ lab = "irrelevant") ∨
  (¬AdCond t ∧ ¬NeverCond t ∧ ¬ShortCond t ∧ RantCond t ∧ lab = "rant") ∨
  (¬AdCond t ∧ ¬NeverCond t ∧ ¬ShortCond t ∧ ¬RantCond t ∧ lab = "valid")

/-- The span-driven variant as the specification states it: ad when the
detected spans include a url or promo span, else rant when they include a
novisit span, else valid, with the fixed score tables and violations. -/
def specSpanRecord (t : Text) : ClassificationRecord :=
  if ∃ s ∈ default_spans t, s.1 = "url" ∨ s.1 = "promo" then
    { label := "ad"
      scores := [("ad", 0.9), ("valid", 0.05), ("irrelevant", 0.03), ("rant", 0.02)]
      violations := ["No Advertisement"]
      spans := default_spans t }
  else if ∃ s ∈ default_spans t, s.1 = "novisit" then
    { label := "rant"
      scores := [("rant", 0.85), ("valid", 0.08), ("irrelevant", 0.05), ("ad", 0.02)]
      violations := ["No Rant Without Visit"]
      spans := default_spans t }
  else
    { label := "valid"
      scores := [("valid", 0.88), ("ad", 0.05), ("irrelevant", 0.04), ("rant", 0.03)]
      violations := []
      spans := default_spans t }

instance : IsAntisymm Span (fun a b : Span => a.2.1 < b.2.1) :=
  ⟨fun _ _ h1 h2 => absurd h2 (Nat.lt_asymm h1)⟩

theorem leadsWith_iff (n : Text) : ∀ l, leadsWith n l = true ↔ ∃ r, l = n ++ r := by
  induction n with
  | nil => intro l; simp [leadsWith]
  | cons a as ih =>
    intro l
    cases l with
    | nil => simp [leadsWith]
    | cons b bs =>
      simp only [leadsWith, Bool.and_eq_true, beq_iff_eq, ih bs]
      constructor
      · rintro ⟨rfl, r, rfl⟩
        exact ⟨r, rfl⟩
      · rintro ⟨r, he⟩
        injection he with h1 h2
        exact ⟨h1.symm, r, h2⟩

theorem isSubOf_iff (n : Text) : ∀ h, isSubOf n h = true ↔ ContainsSub n h := by
  intro h
  induction h with
  | nil =>
    simp only [isSubOf, ContainsSub, List.isEmpty_iff]
    constructor
    · rintro rfl
      exact ⟨[], [], rfl⟩
    · rintro ⟨a, b, hab⟩
      rcases List.append_eq_nil.mp hab.symm with ⟨h1, h2⟩
      rcases List.append_eq_nil.mp h1 with ⟨-, h3⟩
      exact h3
  | cons c rest ih =>
    simp only [isSubOf, Bool.or_eq_true, leadsWith_iff, ih, ContainsSub]
    constructor
    · rintro (⟨r, hr⟩ | ⟨a, b, hb⟩)
      · exact ⟨[], r, by simpa using hr⟩
      · exact ⟨c :: a, b, by simp [hb]⟩
    · rintro ⟨a, b, hab⟩
      cases a with
      | nil => exact Or.inl ⟨b, by simpa using hab⟩
      | cons a0 a1 =>
        injection hab with h1 h2
        exact Or.inr ⟨a1, b, h2⟩

theorem nonWsRun_pos_iff (l : Text) :
    0 < nonWsRun l ↔ ∃ c r, l = c :: r ∧ pyWs c = false := by
  cases l with
  | nil => simp [nonWsRun]
  | cons c r =>
    simp only [nonWsRun, List.takeWhile]
    cases hc : pyWs c with
    | false =>
      simp only [hc, Bool.not_false]
      constructor
      · intro _
        exact ⟨c, r, rfl, hc⟩
      · intro _
        simp
    | true =>
      simp only [hc, Bool.not_true]
      constructor
      · intro h
        simp at h
      · rintro ⟨c2, r2, he, h2⟩
        injection he with h3 h4
        subst h3
        rw [hc] at h2
        cases h2

theorem urlLenAt_pos {l : Text} {n : Nat} (h : urlLenAt l = some n) : 0 < n := by
  unfold urlLenAt at h
  split at h
  · injection h with h2
    omega
  · split at h
    · injection h with h2
      omega
    · split at h
      · injection h with h2
        omega
      · cases h

theorem urlLenAt_isSome_iff (l : Text) : (urlLenAt l).isSome = true ↔ SpecUrlAt l := by
  constructor
  · intro h
    unfold urlLenAt at h
    split at h <;> rename_i hc
    · rw [Bool.and_eq_true] at hc
      obtain ⟨h1, h2⟩ := hc
      rcases (leadsWith_iff _ _).mp h1 with ⟨r, rfl⟩
      rw [show (httpsP ++ r).drop 8 = r from by
        rw [show (8 : Nat) = httpsP.length from rfl]; exact List.drop_left _ _] at h2
      rcases (nonWsRun_pos_iff r).mp (of_decide_eq_true h2) with ⟨c, r2, rfl, hc2⟩
      exact ⟨c, r2, Or.inr (Or.inl rfl), hc2⟩
    · split at h <;> rename_i hc3
      · rw [Bool.and_eq_true] at hc3
        obtain ⟨h1, h2⟩ := hc3
        rcases (leadsWith_iff _ _).mp h1 with ⟨r, rfl⟩
        rw [show (httpP ++ r).drop 7 = r from by
          rw [show (7 : Nat) = httpP.length from rfl]; exact List.drop_left _ _] at h2
        rcases (nonWsRun_pos_iff r).mp (of_decide_eq_true h2) with ⟨c, r2, rfl, hc2⟩
        exact ⟨c, r2, Or.inl rfl, hc2⟩
      · split at h <;> rename_i hc4
        · rw [Bool.and_eq_true] at hc4
          obtain ⟨h1, h2⟩ := hc4
          rcases (leadsWith_iff _ _).mp h1 with ⟨r, rfl⟩
          rw [show (wwwP ++ r).drop 4 = r from by
            rw [show (4 : Nat) = wwwP.length from rfl]; exact List.drop_left _ _] at h2
          rcases (nonWsRun_pos_iff r).mp (of_decide_eq_true h2) with ⟨c, r2, rfl, hc2⟩
          exact ⟨c, r2, Or.inr (Or.inr rfl), hc2⟩
        · cases h
  · rintro ⟨c, r, hd, hc⟩
    have hrun : 0 < nonWsRun (c :: r) := (nonWsRun_pos_iff _).mpr ⟨c, r, rfl, hc⟩
    rcases hd with rfl | rfl | rfl
    · have e1 : urlLenAt (httpP ++ c :: r) =
          if decide (0 < nonWsRun (c :: r)) then some (7 + nonWsRun (c :: r)) else none := rfl
      rw [e1]
      simp [hrun]
    · have e1 : urlLenAt (httpsP ++ c :: r) =
          if decide (0 < nonWsRun (c :: r)) then some (8 + nonWsRun (c :: r)) else none := rfl
      rw [e1]
      simp [hrun]
    · have e1 : urlLenAt (wwwP ++ c :: r) =
          if decide (0 < nonWsRun (c :: r)) then some (4 + nonWsRun (c :: r)) else none := rfl
      rw [e1]
      simp [hrun]

theorem urlSearch_iff (t : Text) : urlSearch t = true ↔ SpecUrlHit t := by
  induction t with
  | nil =>
    simp only [urlSearch, SpecUrlHit]
    constructor
    · intro h
      cases h
    · rintro ⟨pre, suf, he, c, r, hd, -⟩
      rcases List.append_eq_nil.mp he.symm with ⟨rfl, rfl⟩
      rcases hd with h | h | h <;> cases h
  | cons c0 rest ih =>
    simp only [urlSearch, Bool.or_eq_true, urlLenAt_isSome_iff, ih]
    constructor
    · rintro (h | ⟨pre, suf, rfl, hat⟩)
      · exact ⟨[], c0 :: rest, rfl, h⟩
      · exact ⟨c0 :: pre, suf, rfl, hat⟩
    · rintro ⟨pre, suf, he, hat⟩
      cases pre with
      | nil =>
        left
        rw [List.nil_append] at he
        rw [he]
        exact hat
      | cons p0 p1 =>
        injection he with h1 h2
        exact Or.inr ⟨p1, suf, h2, hat⟩

theorem pyWs_cases {c : Char} (h : pyWs c = true) :
    c.toNat = 32 ∨ c.toNat = 9 ∨ c.toNat = 10 ∨ c.toNat = 13 ∨ c.toNat = 11 ∨ c.toNat = 12 := by
  simp only [pyWs, Bool.or_eq_true, decide_eq_true_eq] at h
  tauto

theorem lowerChar_of_ws {c : Char} (h : pyWs c = true) : lowerChar c = c := by
  rcases pyWs_cases h with h2 | h2 | h2 | h2 | h2 | h2 <;>
    · rw [lowerChar, if_neg]
      omega

theorem lowerText_of_ws {t : Text} (h : ∀ c ∈ t, pyWs c = true) :
    ∀ c ∈ lowerText t, pyWs c = true := by
  intro c hc
  rcases List.mem_map.mp hc with ⟨c2, hc2, rfl⟩
  rw [lowerChar_of_ws (h c2 hc2)]
  exact h c2 hc2

theorem isSubOf_ws_false {n t : Text} (hn : ∃ c0 r, n = c0 :: r ∧ pyWs c0 = false)
    (h : ∀ c ∈ t, pyWs c = true) : isSubOf n t = false := by
  rcases hn with ⟨c0, n, rfl, hc0⟩
  induction t with
  | nil => rfl
  | cons c rest ih =>
    have hlw : leadsWith (c0 :: n) (c :: rest) = false := by
      simp only [leadsWith, Bool.and_eq_false_iff]
      left
      rw [beq_eq_false_iff_ne]
      intro he
      rw [he] at hc0
      rw [h c (by simp)] at hc0
      cases hc0
    simp only [isSubOf, hlw, Bool.false_or]
    exact ih (fun c2 hc2 => h c2 (by simp [hc2]))

theorem urlLenAt_ws_none {t : Text} (h : ∀ c ∈ t, pyWs c = true) : urlLenAt t = none := by
  cases t with
  | nil => rfl
  | cons c rest =>
    have hne : ∀ d : Char, pyWs d = false → (d == c) = false := by
      intro d hd
      rw [beq_eq_false_iff_ne]
      intro he
      rw [he] at hd
      rw [h c (by simp)] at hd
      cases hd
    unfold urlLenAt
    rw [show leadsWith httpsP (c :: rest) = ('h' == c && leadsWith ['t', 't', 'p', 's', ':', '/', '/'] rest) from rfl]
    rw [show leadsWith httpP (c :: rest) = ('h' == c && leadsWith ['t', 't', 'p', ':', '/', '/'] rest) from rfl]
    rw [show leadsWith wwwP (c :: rest) = ('w' == c && leadsWith ['w', 'w', '.'] rest) from rfl]
    rw [hne 'h' (by decide), hne 'w' (by decide)]
    simp

theorem urlSearch_ws_false {t : Text} (h : ∀ c ∈ t, pyWs c = true) : urlSearch t = false := by
  induction t with
  | nil => rfl
  | cons c rest ih =>
    simp only [urlSearch, Bool.or_eq_false_iff]
    constructor
    · rw [urlLenAt_ws_none h]
      rfl
    · exact ih (fun c2 hc2 => h c2 (by simp [hc2]))

theorem wordCount_ws {t : Text} (h : ∀ c ∈ t, pyWs c = true) : wordCount t = 0 := by
  have : ∀ b, wordCountAux t b = 0 := by
    induction t with
    | nil => intro b; rfl
    | cons c rest ih =>
      intro b
      simp only [wordCountAux, h c (by simp), if_true]
      exact ih (fun c2 hc2 => h c2 (by simp [hc2])) false
  exact this false

theorem asciiLower_upper_excl {c : Char} (h : asciiLower c = true) : asciiUpper c = false := by
  simp only [asciiLower, decide_eq_true_eq] at h
  simp only [asciiUpper, decide_eq_false_iff_not]
  omega

theorem pyIsUpper_iff (t : Text) :
    pyIsUpper t = true ↔
      ((∃ c ∈ t, asciiCased c = true) ∧ ∀ c ∈ t, asciiCased c = true → asciiUpper c = true) := by
  simp only [pyIsUpper, Bool.and_eq_true, List.any_eq_true, List.all_eq_true,
    Bool.not_eq_true']
  constructor
  · rintro ⟨⟨c, hc, hcased⟩, hall⟩
    refine ⟨⟨c, hc, hcased⟩, ?_⟩
    intro c2 hc2 hcased2
    have hlow := hall c2 hc2
    simp only [asciiCased, Bool.or_eq_true, hlow] at hcased2
    simpa using hcased2
  · rintro ⟨⟨c, hc, hcased⟩, hall⟩
    refine ⟨⟨c, hc, hcased⟩, ?_⟩
    intro c2 hc2
    cases hlow : asciiLower c2
    · rfl
    · have hup := hall c2 hc2 (by simp [asciiCased, hlow])
      rw [asciiLower_upper_excl hlow] at hup
      cases hup

theorem mem_insSpan {s y : Span} : ∀ {l : List Span}, y ∈ insSpan s l → y = s ∨ y ∈ l := by
  intro l
  induction l with
  | nil => simp [insSpan]
  | cons x xs ih =>
    simp only [insSpan]
    split
    · intro hy
      rcases List.mem_cons.mp hy with rfl | hy2
      · exact Or.inr (by simp)
      · rcases ih hy2 with rfl | hy3
        · exact Or.inl rfl
        · exact Or.inr (by simp [hy3])
    · intro hy
      rcases List.mem_cons.mp hy with rfl | hy2
      · exact Or.inl rfl
      · exact Or.inr hy2

theorem perm_insSpan (s : Span) : ∀ l : List Span, List.Perm (insSpan s l) (s :: l) := by
  intro l
  induction l with
  | nil => rfl
  | cons x xs ih =>
    simp only [insSpan]
    split
    · exact (ih.cons x).trans (List.Perm.swap s x xs)
    · rfl

theorem perm_isort : ∀ l : List Span, List.Perm (isort l) l := by
  intro l
  induction l with
  | nil => rfl
  | cons x xs ih => exact (perm_insSpan x (isort xs)).trans (ih.cons x)

theorem sorted_insSpan (s : Span) :
    ∀ {l : List Span}, List.Pairwise (fun a b : Span => a.2.1 ≤ b.2.1) l →
      List.Pairwise (fun a b : Span => a.2.1 ≤ b.2.1) (insSpan s l) := by
  intro l
  induction l with
  | nil =>
    intro _
    simp [insSpan]
  | cons x xs ih =>
    intro hp
    rcases List.pairwise_cons.mp hp with ⟨hx, hxs⟩
    simp only [insSpan]
    split <;> rename_i hc
    · refine List.pairwise_cons.mpr ⟨?_, ih hxs⟩
      intro y hy
      rcases mem_insSpan hy with rfl | hy2
      · omega
      · exact hx y hy2
    · refine List.pairwise_cons.mpr ⟨?_, hp⟩
      intro y hy
      rcases List.mem_cons.mp hy with rfl | hy2
      · omega
      · have := hx y hy2
        omega

theorem sorted_isort : ∀ l : List Span,
    List.Pairwise (fun a b : Span => a.2.1 ≤ b.2.1) (isort l) := by
  intro l
  induction l with
  | nil => simp [isort]
  | cons x xs ih => exact sorted_insSpan x ih

theorem scan_lb (f : Nat → Option Nat) :
    ∀ (fuel i : Nat) (p : Nat × Nat), p ∈ scanSpans f fuel i → i ≤ p.1 := by
  intro fuel
  induction fuel with
  | zero => simp [scanSpans]
  | succ m ih =>
    intro i p hp
    unfold scanSpans at hp
    cases hf : f i with
    | some n =>
      rw [hf] at hp
      rcases List.mem_cons.mp hp with rfl | hp2
      · simp
      · have := ih (i + n) p hp2
        omega
    | none =>
      rw [hf] at hp
      have := ih (i + 1) p hp
      omega

theorem scan_pairwise (f : Nat → Option Nat) (hf : ∀ i n, f i = some n → 0 < n) :
    ∀ (fuel i : Nat),
      List.Pairwise (fun p q : Nat × Nat => p.1 < q.1) (scanSpans f fuel i) := by
  intro fuel
  induction fuel with
  | zero => intro i; simp [scanSpans]
  | succ m ih =>
    intro i
    unfold scanSpans
    cases hfi : f i with
    | some n =>
      refine List.pairwise_cons.mpr ⟨?_, ih (i + n)⟩
      intro q hq
      have h1 := scan_lb f m (i + n) q hq
      have h2 := hf i n hfi
      omega
    | none => exact ih (i + 1)

theorem filter_url_tagAs_url (l : List (Nat × Nat)) :
    (tagAs "url" l).filter (fun s => s.1 == "url") = tagAs "url" l := by
  apply List.filter_eq_self.mpr
  intro s hs
  rcases List.mem_map.mp hs with ⟨p, -, rfl⟩
  rfl

theorem filter_url_tagAs_ne (k : String) (l : List (Nat × Nat)) (h : (k == "url") = false) :
    (tagAs k l).filter (fun s => s.1 == "url") = [] := by
  apply List.filter_eq_nil_iff.mpr
  intro s hs
  rcases List.mem_map.mp hs with ⟨p, -, rfl⟩
  simp only [h]
  exact Bool.false_ne_true

theorem filter_url_flatMap (ws : List Text) (t : Text) :
    ((ws.flatMap (fun w => tagAs "promo" (wordSpansOf w t))).filter
      (fun s => s.1 == "url")) = [] := by
  apply List.filter_eq_nil_iff.mpr
  intro s hs
  rcases List.mem_flatMap.mp hs with ⟨w, -, hw⟩
  rcases List.mem_map.mp hw with ⟨p, -, rfl⟩
  simp

theorem find_spans_filter_url (t : Text) :
    (find_spans t).filter (fun s => s.1 == "url") = tagAs "url" (urlSpansOf t) := by
  unfold find_spans
  rw [List.filter_append, List.filter_append, filter_url_tagAs_url, filter_url_flatMap,
    filter_url_tagAs_ne "irrelevant" _ (by decide)]
  simp

theorem urlTag_strict (t : Text) :
    List.Pairwise (fun a b : Span => a.2.1 < b.2.1) (tagAs "url" (urlSpansOf t)) := by
  unfold tagAs
  rw [List.pairwise_map]
  exact scan_pairwise _ (fun i n h => urlLenAt_pos h) _ _

theorem default_spans_filter_url_perm (t : Text) :
    List.Perm ((default_spans t).filter (fun s => s.1 == "url"))
      (tagAs "url" (urlSpansOf t)) := by
  unfold default_spans
  refine (List.Perm.filter _ (perm_isort _)).trans ?_
  rw [List.filter_append, List.filter_append, filter_url_tagAs_url, filter_url_flatMap,
    filter_url_tagAs_ne "novisit" _ (by decide)]
  simp

theorem span_map_eta (l : List Span) : l.map (fun s => (s.1, s.2.1, s.2.2)) = l := by
  induction l with
  | nil => rfl
  | cons s rest ih => simp [ih]

theorem classifyLabel_mem (t : Text) :
    classifyLabel t = "ad" ∨ classifyLabel t = "irrelevant" ∨
      classifyLabel t = "rant" ∨ classifyLabel t = "valid" := by
  unfold classifyLabel
  split_ifs <;> simp

theorem baseConfidence_lb (t : Text) (vDraw : ℚ)
    (hv : classifyLabel t = "valid" → 0.6 ≤ vDraw) :
    0.6 ≤ baseConfidence t vDraw := by
  unfold classifyLabel at hv
  unfold baseConfidence
  split_ifs at hv ⊢ <;> first
    | exact hv rfl
    | norm_num

theorem scores_bound (a b c : String) (base rem : ℚ) (draw : Nat → ℚ)
    (hb : 0.6 ≤ base) (hrem : rem = 1 - base)
    (h0 : 0.01 ≤ draw 0 ∧ draw 0 ≤ 0.6 * rem)
    (h1 : 0.01 ≤ draw 1 ∧ draw 1 ≤ 0.6 * (rem - draw 0)) :
    ∀ p ∈ buildScores draw [a, b, c] rem 0, p.2 ≤ base := by
  intro p hp
  simp only [buildScores, List.mem_cons, List.mem_singleton] at hp
  rcases hp with rfl | rfl | rfl | h
  · simp only
    nlinarith [h0.1, h0.2, h1.1, h1.2]
  · simp only
    nlinarith [h0.1, h0.2, h1.1, h1.2]
  · simp only
    nlinarith [h0.1, h0.2, h1.1, h1.2]
  · cases h

theorem unescape5_cons_ne {c : Char} (l : Text) (h : (c == '&') = false) :
    unescape5 (c :: l) = c :: unescape5 l := by
  simp [unescape5, h]

theorem unescape5_amp (E : Text) :
    unescape5 ('&' :: 'a' :: 'm' :: 'p' :: ';' :: E) = '&' :: unescape5 E := by
  simp only [unescape5]
  rw [show (('a' :: 'm' :: 'p' :: ';' :: E : Text).take 4) = (['a', 'm', 'p', ';'] : Text) from rfl,
    show (('a' :: 'm' :: 'p' :: ';' :: E : Text).drop 4) = E from rfl]
  simp

theorem unescape5_lt (E : Text) :
    unescape5 ('&' :: 'l' :: 't' :: ';' :: E) = '<' :: unescape5 E := by
  simp only [unescape5]
  rw [show (('l' :: 't' :: ';' :: E : Text).take 4) = 'l' :: 't' :: ';' :: E.take 1 from rfl,
    show (('l' :: 't' :: ';' :: E : Text).take 3) = (['l', 't', ';'] : Text) from rfl,
    show (('l' :: 't' :: ';' :: E : Text).drop 3) = E from rfl]
  simp

theorem unescape5_gt (E : Text) :
    unescape5 ('&' :: 'g' :: 't' :: ';' :: E) = '>' :: unescape5 E := by
  simp only [unescape5]
  rw [show (('g' :: 't' :: ';' :: E : Text).take 4) = 'g' :: 't' :: ';' :: E.take 1 from rfl,
    show (('g' :: 't' :: ';' :: E : Text).take 3) = (['g', 't', ';'] : Text) from rfl,
    show (('g' :: 't' :: ';' :: E : Text).drop 3) = E from rfl]
  simp

theorem unescape5_quot (E : Text) :
    unescape5 ('&' :: 'q' :: 'u' :: 'o' :: 't' :: ';' :: E) = quoteC :: unescape5 E := by
  simp only [unescape5]
  rw [show (('q' :: 'u' :: 'o' :: 't' :: ';' :: E : Text).take 4)
        = (['q', 'u', 'o', 't'] : Text) from rfl,
    show (('q' :: 'u' :: 'o' :: 't' :: ';' :: E : Text).take 3) = (['q', 'u', 'o'] : Text) from rfl,
    show (('q' :: 'u' :: 'o' :: 't' :: ';' :: E : Text).take 5)
        = (['q', 'u', 'o', 't', ';'] : Text) from rfl,
    show (('q' :: 'u' :: 'o' :: 't' :: ';' :: E : Text).drop 5) = E from rfl]
  simp

theorem unescape5_x27 (E : Text) :
    unescape5 ('&' :: '#' :: 'x' :: '2' :: '7' :: ';' :: E) = apos :: unescape5 E := by
  simp only [unescape5]
  rw [show (('#' :: 'x' :: '2' :: '7' :: ';' :: E : Text).take 4)
        = (['#', 'x', '2', '7'] : Text) from rfl,
    show (('#' :: 'x' :: '2' :: '7' :: ';' :: E : Text).take 3) = (['#', 'x', '2'] : Text) from rfl,
    show (('#' :: 'x' :: '2' :: '7' :: ';' :: E : Text).take 5)
        = (['#', 'x', '2', '7', ';'] : Text) from rfl,
    show (('#' :: 'x' :: '2' :: '7' :: ';' :: E : Text).drop 5) = E from rfl]
  simp

theorem unescape5_escape (t : Text) : unescape5 (escapeHtml t) = t := by
  induction t with
  | nil =>
    rw [show escapeHtml ([] : Text) = ([] : Text) from rfl]
    simp [unescape5]
  | cons c r ih =>
    show unescape5 (escChar c ++ escapeHtml r) = c :: r
    by_cases h1 : c = '&'
    · subst h1
      rw [show (escChar '&' ++ escapeHtml r : Text)
            = '&' :: 'a' :: 'm' :: 'p' :: ';' :: escapeHtml r from rfl,
        unescape5_amp, ih]
    · by_cases h2 : c = '<'
      · subst h2
        rw [show (escChar '<' ++ escapeHtml r : Text)
              = '&' :: 'l' :: 't' :: ';' :: escapeHtml r from rfl,
          unescape5_lt, ih]
      · by_cases h3 : c = '>'
        · subst h3
          rw [show (escChar '>' ++ escapeHtml r : Text)
                = '&' :: 'g' :: 't' :: ';' :: escapeHtml r from rfl,
            unescape5_gt, ih]
        · by_cases h4 : c = quoteC
          · subst h4
            rw [show (escChar quoteC ++ escapeHtml r : Text)
                  = '&' :: 'q' :: 'u' :: 'o' :: 't' :: ';' :: escapeHtml r from rfl,
              unescape5_quot, ih]
          · by_cases h5 : c = apos
            · subst h5
              rw [show (escChar apos ++ escapeHtml r : Text)
                    = '&' :: '#' :: 'x' :: '2' :: '7' :: ';' :: escapeHtml r from rfl,
              unescape5_x27, ih]
            · have he : escChar c = [c] := by
                simp [escChar, h1, h2, h3, h4, h5]
              rw [he, show ([c] ++ escapeHtml r : Text) = c :: escapeHtml r from rfl,
                unescape5_cons_ne _ (by simp [h1]), ih]

/-- C9: rendering with an empty span list yields exactly the markup-escaped
text, and decoding the HTML entity escapes of that output restores the
original text unchanged. -/
theorem c9_render_empty_roundtrip (t : Text) :
    render_html_with_spans t [] = escapeHtml t ∧ unescape5 (escapeHtml t) = t :=
  ⟨rfl, unescape5_escape t⟩

/-- C1: for every input, the label assigned by classify_review satisfies the
five-step first-match-wins cascade of the specification: ad on a
"visit our website" occurrence (case-insensitive) or a URL pattern match,
else irrelevant on "never been", else irrelevant on a whitespace-delimited
word count below five, else rant on "!!!!" or an entirely-uppercase text
with at least one cased character, else valid. -/
theorem c1_label_cascade (t : Text) (vDraw : ℚ) (draw : Nat → ℚ) :
    SpecCascade t ((classify_review t vDraw draw).label) := by
  have adIff : (isSubOf vowP (lowerText t) || urlSearch t) = true ↔ AdCond t := by
    rw [Bool.or_eq_true, isSubOf_iff, urlSearch_iff]
    exact Iff.rfl
  have nIff : isSubOf neverP (lowerText t) = true ↔ NeverCond t := isSubOf_iff _ _
  have rIff : (isSubOf bangP t || pyIsUpper t) = true ↔ RantCond t := by
    rw [Bool.or_eq_true, isSubOf_iff, pyIsUpper_iff]
    exact Iff.rfl
  show SpecCascade t (classifyLabel t)
  unfold classifyLabel
  split_ifs with hA hN hS hR
  · exact Or.inl ⟨adIff.mp hA, rfl⟩
  · exact Or.inr (Or.inl ⟨fun h => hA (adIff.mpr h), nIff.mp hN, rfl⟩)
  · exact Or.inr (Or.inr (Or.inl
      ⟨fun h => hA (adIff.mpr h), fun h => hN (nIff.mpr h), hS, rfl⟩))
  · exact Or.inr (Or.inr (Or.inr (Or.inl
      ⟨fun h => hA (adIff.mpr h), fun h => hN (nIff.mpr h), hS, rIff.mp hR, rfl⟩)))
  · exact Or.inr (Or.inr (Or.inr (Or.inr
      ⟨fun h => hA (adIff.mpr h), fun h => hN (nIff.mpr h), hS,
        fun h => hR (rIff.mpr h), rfl⟩)))

theorem inferOne_eq_spec (t : Text) : inferOne t = specSpanRecord t := by
  have had : ((default_spans t).any (fun s => s.1 == "url")
        || (default_spans t).any (fun s => s.1 == "promo")) = true
      ↔ ∃ s ∈ default_spans t, s.1 = "url" ∨ s.1 = "promo" := by
    simp only [Bool.or_eq_true, List.any_eq_true, beq_iff_eq]
    constructor
    · rintro (⟨s, hs, h⟩ | ⟨s, hs, h⟩)
      · exact ⟨s, hs, Or.inl h⟩
      · exact ⟨s, hs, Or.inr h⟩
    · rintro ⟨s, hs, h | h⟩
      · exact Or.inl ⟨s, hs, h⟩
      · exact Or.inr ⟨s, hs, h⟩
  have hnv : ((default_spans t).any (fun s => s.1 == "novisit")) = true
      ↔ ∃ s ∈ default_spans t, s.1 = "novisit" := by
    simp [List.any_eq_true]
  unfold inferOne specSpanRecord
  by_cases h1 : ∃ s ∈ default_spans t, s.1 = "url" ∨ s.1 = "promo"
  · rw [if_pos (had.mpr h1), if_pos h1, span_map_eta]
  · rw [if_neg (fun hb => h1 (had.mp hb)), if_neg h1]
    by_cases h2 : ∃ s ∈ default_spans t, s.1 = "novisit"
    · rw [if_pos (hnv.mpr h2), if_pos h2, span_map_eta]
    · rw [if_neg (fun hb => h2 (hnv.mp hb)), if_neg h2, span_map_eta]

/-- C2: the span-driven variant infer_batch deterministically classifies
every element of the batch by its detected spans: ad with the fixed ad score
table and violation "No Advertisement" when a url or promo span is present,
else rant with the fixed rant table and violation "No Rant Without Visit"
when a novisit span is present, else valid with the fixed valid table and no
violations. -/
theorem c2_infer_batch_spec (ts : List Text) : infer_batch ts = ts.map specSpanRecord := by
  induction ts with
  | nil => rfl
  | cons t rest ih =>
    show inferOne t :: infer_batch rest = specSpanRecord t :: rest.map specSpanRecord
    rw [inferOne_eq_spec, ih]

/-- C4: the violations list of classify_review is empty exactly when the
decided label is valid: every label produced by a cascade branch other than
valid re-derives at least one violation string, and the valid branch yields
none. -/
theorem c4_violations_iff_valid (t : Text) (vDraw : ℚ) (draw : Nat → ℚ) :
    (classify_review t vDraw draw).violations = [] ↔
      (classify_review t vDraw draw).label = "valid" := by
  show get_violations (classifyLabel t) t = [] ↔ classifyLabel t = "valid"
  unfold classifyLabel
  split_ifs with hA hN hS hR
  · constructor
    · intro hv
      exfalso
      unfold get_violations at hv
      rw [if_pos rfl] at hv
      rw [Bool.or_eq_true] at hA
      rcases hA with h | h
      · have hany : promoWordsCls.any (fun w => isSubOf w (lowerText t)) = true :=
          List.any_eq_true.mpr ⟨vowP, by simp [promoWordsCls], h⟩
        rw [hany] at hv
        simp at hv
      · rw [h] at hv
        simp at hv
    · intro hv
      exact absurd hv (by decide)
  · constructor
    · intro hv
      exfalso
      unfold get_violations at hv
      rw [if_neg (by decide), if_pos rfl, hN] at hv
      simp at hv
    · intro hv
      exact absurd hv (by decide)
  · constructor
    · intro hv
      exfalso
      unfold get_violations at hv
      rw [if_neg (by decide), if_pos rfl, if_pos hS] at hv
      simp at hv
    · intro hv
      exact absurd hv (by decide)
  · constructor
    · intro hv
      exfalso
      unfold get_violations at hv
      rw [if_neg (by decide), if_neg (by decide), if_pos rfl] at hv
      rw [Bool.or_eq_true] at hR
      rcases hR with h | h
      · rw [h] at hv
        simp at hv
      · rw [h] at hv
        simp at hv
    · intro hv
      exact absurd hv (by decide)
  · exact ⟨fun _ => rfl, fun _ => rfl⟩

/-- C3: whenever the random draws respect their stated uniform ranges, the
score that classify_review assigns to the decided label is the maximum entry
of the four-label scores mapping: the lookup of the decided label yields the
base confidence and every entry is bounded by it. -/
theorem c3_label_score_max (t : Text) (vDraw : ℚ) (draw : Nat → ℚ)
    (hv : classifyLabel t = "valid" → 0.6 ≤ vDraw ∧ vDraw ≤ 0.95)
    (h0 : 0.01 ≤ draw 0 ∧ draw 0 ≤ 0.6 * (1 - baseConfidence t vDraw))
    (h1 : 0.01 ≤ draw 1 ∧ draw 1 ≤ 0.6 * (1 - baseConfidence t vDraw - draw 0)) :
    ((classify_review t vDraw draw).scores).lookup (classify_review t vDraw draw).label
        = some (baseConfidence t vDraw) ∧
      ∀ p ∈ (classify_review t vDraw draw).scores, p.2 ≤ baseConfidence t vDraw := by
  have hb : 0.6 ≤ baseConfidence t vDraw := baseConfidence_lb t vDraw (fun h => (hv h).1)
  constructor
  · show List.lookup (classifyLabel t)
        ((classifyLabel t, baseConfidence t vDraw) ::
          buildScores draw (categories.filter (fun c => c != classifyLabel t))
            (1 - baseConfidence t vDraw) 0) = some (baseConfidence t vDraw)
    simp [List.lookup]
  · intro p hp
    have hp2 : p ∈ (classifyLabel t, baseConfidence t vDraw) ::
        buildScores draw (categories.filter (fun c => c != classifyLabel t))
          (1 - baseConfidence t vDraw) 0 := hp
    rcases List.mem_cons.mp hp2 with rfl | hp3
    · exact le_refl _
    · rcases classifyLabel_mem t with h | h | h | h
      · rw [h, show categories.filter (fun c => c != "ad")
            = ["valid", "irrelevant", "rant"] from rfl] at hp3
        exact scores_bound _ _ _ _ _ draw hb rfl h0 h1 p hp3
      · rw [h, show categories.filter (fun c => c != "irrelevant")
            = ["valid", "ad", "rant"] from rfl] at hp3
        exact scores_bound _ _ _ _ _ draw hb rfl h0 h1 p hp3
      · rw [h, show categories.filter (fun c => c != "rant")
            = ["valid", "ad", "irrelevant"] from rfl] at hp3
        exact scores_bound _ _ _ _ _ draw hb rfl h0 h1 p hp3
      · rw [h, show categories.filter (fun c => c != "valid")
            = ["ad", "irrelevant", "rant"] from rfl] at hp3
        exact scores_bound _ _ _ _ _ draw hb rfl h0 h1 p hp3

/-- Witness for C3 at a concrete valid review with concrete in-range draws:
the lookup of the decided label yields the base confidence, and the
last-category score 0.16 is bounded by it. -/
theorem c3_label_score_max_witness :
    List.lookup (classify_review (lit "the food was quite excellent") 0.8
          (fun _ => 0.02)).label
        (classify_review (lit "the food was quite excellent") 0.8 (fun _ => 0.02)).scores
      = some (baseConfidence (lit "the food was quite excellent") 0.8) ∧
      (classifyLabel (lit "the food was quite excellent"),
          baseConfidence (lit "the food was quite excellent") 0.8).2
        ≤ baseConfidence (lit "the food was quite excellent") 0.8 := by
  have hbase : baseConfidence (lit "the food was quite excellent") (0.8 : ℚ) = 0.8 := rfl
  have h := c3_label_score_max (lit "the food was quite excellent") 0.8 (fun _ => 0.02)
    (fun _ => by norm_num) (by rw [hbase]; norm_num) (by rw [hbase]; norm_num)
  exact ⟨h.1, h.2 (classifyLabel (lit "the food was quite excellent"),
    baseConfidence (lit "the food was quite excellent") 0.8) (List.mem_cons_self _ _)⟩

/-- C8: classification is total and on empty or whitespace-only input falls
into the short-text branch: the label is irrelevant and the violations list
is exactly ["Insufficient content"]. -/
theorem c8_whitespace_short_text (t : Text) (vDraw : ℚ) (draw : Nat → ℚ)
    (h : ∀ c ∈ t, pyWs c = true) :
    (classify_review t vDraw draw).label = "irrelevant" ∧
      (classify_review t vDraw draw).violations = ["Insufficient content"] := by
  have hvow : isSubOf vowP (lowerText t) = false :=
    isSubOf_ws_false ⟨'v', _, rfl, by decide⟩ (lowerText_of_ws h)
  have hnev : isSubOf neverP (lowerText t) = false :=
    isSubOf_ws_false ⟨'n', _, rfl, by decide⟩ (lowerText_of_ws h)
  have hurl : urlSearch t = false := urlSearch_ws_false h
  have hwc : wordCount t = 0 := wordCount_ws h
  have hlab : classifyLabel t = "irrelevant" := by
    unfold classifyLabel
    rw [hvow, hurl, hnev, hwc]
    rfl
  constructor
  · exact hlab
  · show get_violations (classifyLabel t) t = ["Insufficient content"]
    rw [hlab]
    unfold get_violations
    rw [if_neg (by decide), if_pos rfl, hnev, hwc]
    rfl

/-- Witness for C8 at a whitespace-only input. -/
theorem c8_whitespace_short_text_witness :
    (classify_review (lit " ") 0 (fun _ => 0)).label = "irrelevant" ∧
      (classify_review (lit " ") 0 (fun _ => 0)).violations = ["Insufficient content"] :=
  c8_whitespace_short_text (lit " ") 0 (fun _ => 0) (by decide)

/-- C10: the scores mapping of classify_review always has exactly the four
taxonomy labels as keys, and in exact rational arithmetic its values sum to
exactly 1, the last-processed non-winning label absorbing the remaining
mass. -/
theorem c10_scores_keys_sum (t : Text) (vDraw : ℚ) (draw : Nat → ℚ) :
    List.Perm ((classify_review t vDraw draw).scores.map Prod.fst) categories ∧
      ((classify_review t vDraw draw).scores.map Prod.snd).sum = 1 := by
  rcases classifyLabel_mem t with h | h | h | h
  · constructor
    · show List.Perm (((classifyLabel t, baseConfidence t vDraw) ::
          buildScores draw (categories.filter (fun c => c != classifyLabel t))
            (1 - baseConfidence t vDraw) 0).map Prod.fst) categories
      rw [h, show categories.filter (fun c => c != "ad")
          = ["valid", "irrelevant", "rant"] from rfl]
      simp only [buildScores, List.map_cons, List.map_nil]
      decide
    · show (((classifyLabel t, baseConfidence t vDraw) ::
          buildScores draw (categories.filter (fun c => c != classifyLabel t))
            (1 - baseConfidence t vDraw) 0).map Prod.snd).sum = 1
      rw [h, show categories.filter (fun c => c != "ad")
          = ["valid", "irrelevant", "rant"] from rfl]
      simp only [buildScores, List.map_cons, List.map_nil, List.sum_cons, List.sum_nil]
      ring
  · constructor
    · show List.Perm (((classifyLabel t, baseConfidence t vDraw) ::
          buildScores draw (categories.filter (fun c => c != classifyLabel t))
            (1 - baseConfidence t vDraw) 0).map Prod.fst) categories
      rw [h, show categories.filter (fun c => c != "irrelevant")
          = ["valid", "ad", "rant"] from rfl]
      simp only [buildScores, List.map_cons, List.map_nil]
      decide
    · show (((classifyLabel t, baseConfidence t vDraw) ::
          buildScores draw (categories.filter (fun c => c != classifyLabel t))
            (1 - baseConfidence t vDraw) 0).map Prod.snd).sum = 1
      rw [h, show categories.filter (fun c => c != "irrelevant")
          = ["valid", "ad", "rant"] from rfl]
      simp only [buildScores, List.map_cons, List.map_nil, List.sum_cons, List.sum_nil]
      ring
  · constructor
    · show List.Perm (((classifyLabel t, baseConfidence t vDraw) ::
          buildScores draw (categories.filter (fun c => c != classifyLabel t))
            (1 - baseConfidence t vDraw) 0).map Prod.fst) categories
      rw [h, show categories.filter (fun c => c != "rant")
          = ["valid", "ad", "irrelevant"] from rfl]
      simp only [buildScores, List.map_cons, List.map_nil]
      decide
    · show (((classifyLabel t, baseConfidence t vDraw) ::
          buildScores draw (categories.filter (fun c => c != classifyLabel t))
            (1 - baseConfidence t vDraw) 0).map Prod.snd).sum = 1
      rw [h, show categories.filter (fun c => c != "rant")
          = ["valid", "ad", "irrelevant"] from rfl]
      simp only [buildScores, List.map_cons, List.map_nil, List.sum_cons, List.sum_nil]
      ring
  · constructor
    · show List.Perm (((classifyLabel t, baseConfidence t vDraw) ::
          buildScores draw (categories.filter (fun c => c != classifyLabel t))
            (1 - baseConfidence t vDraw) 0).map Prod.fst) categories
      rw [h, show categories.filter (fun c => c != "valid")
          = ["ad", "irrelevant", "rant"] from rfl]
      simp only [buildScores, List.map_cons, List.map_nil]
      decide
    · show (((classifyLabel t, baseConfidence t vDraw) ::
          buildScores draw (categories.filter (fun c => c != classifyLabel t))
            (1 - baseConfidence t vDraw) 0).map Prod.snd).sum = 1
      rw [h, show categories.filter (fun c => c != "valid")
          = ["ad", "irrelevant", "rant"] from rfl]
      simp only [buildScores, List.map_cons, List.map_nil, List.sum_cons, List.sum_nil]
      ring

/-- Counterexample for C5: on the input "deal www.a" the internal span finder
of the classifier emits the url span before the promo span although the
promo span starts earlier, so its output is not sorted ascending by start
offset. -/
theorem c5_counterexample :
    find_spans (lit "deal www.a") = [("url", 5, 10), ("promo", 0, 4)] ∧
      ¬ List.Pairwise (fun a b : Span => a.2.1 ≤ b.2.1) (find_spans (lit "deal www.a")) := by
  exact ⟨by decide, by decide⟩

/-- C5 amended: within one call, default_spans returns its spans sorted
ascending by start offset; the internal span finder of the classifier instead
returns the spans grouped per category (url, then promo, then non-visitor)
and its list is not sorted by start in general. -/
theorem c5_amended_default_sorted (t : Text) :
    List.Pairwise (fun a b : Span => a.2.1 ≤ b.2.1) (default_spans t) :=
  sorted_isort _

/-- Counterexample for C6: on the input "not visited" the detector finds a
novisit span, but the internal finder of the classifier (whose pattern omits
"not visited") finds nothing, so the two span lists do not agree up to
re-tagging novisit as irrelevant. -/
theorem c6_counterexample :
    find_spans (lit "not visited") = [] ∧
      (default_spans (lit "not visited")).map
          (fun s => if s.1 = "novisit" then (("irrelevant", s.2.1, s.2.2) : Span) else s)
        = [("novisit", 0, 11)].map
          (fun s : Span => if s.1 = "novisit" then (("irrelevant", s.2.1, s.2.2) : Span) else s) ∧
      find_spans (lit "not visited") ≠
        (default_spans (lit "not visited")).map
          (fun s => if s.1 = "novisit" then (("irrelevant", s.2.1, s.2.2) : Span) else s) := by
  exact ⟨by decide, by decide, by decide⟩

/-- C6 amended: the internal span finder of the classifier and the detector
default_spans agree exactly on URL spans (same matches, same order); their
promo and non-visitor matches differ because the classifier uses a larger
promo vocabulary, omits the phrase "not visited", and tags non-visitor
matches irrelevant. -/
theorem c6_amended_url_spans_agree (t : Text) :
    (find_spans t).filter (fun s => s.1 == "url") =
      (default_spans t).filter (fun s => s.1 == "url") := by
  rw [find_spans_filter_url]
  have hperm := default_spans_filter_url_perm t
  have hstrictA := urlTag_strict t
  have hsorted : List.Pairwise (fun a b : Span => a.2.1 ≤ b.2.1)
      ((default_spans t).filter (fun s => s.1 == "url")) :=
    List.Pairwise.sublist (List.filter_sublist _) (sorted_isort _)
  have hnodupA : ((tagAs "url" (urlSpansOf t)).map (fun s : Span => s.2.1)).Nodup :=
    List.pairwise_map.mpr (hstrictA.imp Nat.ne_of_lt)
  have hnodupF : (((default_spans t).filter (fun s => s.1 == "url")).map
      (fun s : Span => s.2.1)).Nodup :=
    ((hperm.map _).nodup_iff).mpr hnodupA
  have hstrictF : List.Pairwise (fun a b : Span => a.2.1 < b.2.1)
      ((default_spans t).filter (fun s => s.1 == "url")) := by
    have hne := List.pairwise_map.mp hnodupF
    exact (hsorted.and hne).imp (fun hab => lt_of_le_of_ne hab.1 hab.2)
  exact (List.eq_of_perm_of_sorted hperm hstrictF hstrictA).symm

/-- Counterexample for C7: a span of kind irrelevant is rendered with the
neutral gray fallback style, not the light-red style the claim asserts. -/
theorem c7_counterexample :
    render_html_with_spans (lit "ab") [("irrelevant", 0, 1)] =
        wrapSpan "#f0f0f0" (lit "a") ++ lit "b" ∧
      spanColorGet "irrelevant" = "#f0f0f0" ∧
      render_html_with_spans (lit "ab") [("irrelevant", 0, 1)] ≠
        wrapSpan "#fecaca" (lit "a") ++ lit "b" := by
  exact ⟨by decide, by decide, by decide⟩

/-- Every span handed to the renderer walk contributes its substring,
escaped and wrapped in the color looked up for its kind, as a contiguous
segment of the output. -/
theorem renderGo_contains (t : Text) :
    ∀ (l : List Span) (last : Nat) (sp : Span), sp ∈ l →
      ContainsSub
        (wrapSpan (spanColorGet sp.1)
          (escapeHtml ((t.drop sp.2.1).take (sp.2.2 - sp.2.1))))
        (renderGo t last l) := by
  intro l
  induction l with
  | nil =>
    intro last sp hsp
    cases hsp
  | cons x rest ih =>
    intro last sp hsp
    obtain ⟨k, s, e⟩ := x
    rcases List.mem_cons.mp hsp with rfl | hsp2
    · exact ⟨(if last < s then escapeHtml ((t.drop last).take (s - last)) else []),
        renderGo t e rest, rfl⟩
    · rcases ih e sp hsp2 with ⟨a, b, hab⟩
      refine ⟨((if last < s then escapeHtml ((t.drop last).take (s - last)) else []) ++
        wrapSpan (spanColorGet k) (escapeHtml ((t.drop s).take (e - s)))) ++ a, b, ?_⟩
      rw [show renderGo t last ((k, s, e) :: rest)
          = ((if last < s then escapeHtml ((t.drop last).take (s - last)) else []) ++
            wrapSpan (spanColorGet k) (escapeHtml ((t.drop s).take (e - s)))) ++
            renderGo t e rest from rfl, hab]
      simp [List.append_assoc]

/-- C7 amended: for every text and every span list, the renderer wraps the
substring of each span in the style from the fixed lookup table, url to
light-yellow #fde68a, novisit to light-red #fecaca, promo to light-green
#bbf7d0, and any other kind, including irrelevant, in the neutral gray
fallback #f0f0f0: the escaped substring of every listed span appears in the
output wrapped in the color looked up for its kind. -/
theorem c7_amended_colors (t : Text) (spans : List Span) :
    (∀ sp ∈ spans,
        ContainsSub
          (wrapSpan (spanColorGet sp.1)
            (escapeHtml ((t.drop sp.2.1).take (sp.2.2 - sp.2.1))))
          (render_html_with_spans t spans)) ∧
      spanColorGet "url" = "#fde68a" ∧ spanColorGet "novisit" = "#fecaca" ∧
      spanColorGet "promo" = "#bbf7d0" ∧ spanColorGet "irrelevant" = "#f0f0f0" := by
  refine ⟨?_, rfl, rfl, rfl, rfl⟩
  intro sp hsp
  cases spans with
  | nil => cases hsp
  | cons x xs =>
    have hmem : sp ∈ isort (x :: xs) := (perm_isort (x :: xs)).mem_iff.mpr hsp
    show ContainsSub _ (renderGo t 0 (isort (x :: xs)))
    exact renderGo_contains t (isort (x :: xs)) 0 sp hmem
